import Mathlib

/-!
Shallow embedding of the TrueCite retrieval-augmented auditing pipeline
(src/backend/auditor.py, ingestion.py, extractor.py, main.py).

Text is modelled as `List Char` (Python `str`).  External effectful
collaborators (the LLM, the PDF loader, the vector store, the JSON parser)
are modelled as `Except`-valued oracles passed in as parameters; a Python
exception corresponds to `Except.error msg`.  Every function below is a
direct translation of the corresponding Python function.
-/

set_option maxHeartbeats 1000000

abbrev Str := List Char

/-- Python `str.strip()`: drop whitespace from both ends. -/
def pyStrip (s : Str) : Str :=
  ((s.dropWhile Char.isWhitespace).reverse.dropWhile Char.isWhitespace).reverse

/-- Locate the first occurrence of `sep` in a string, returning the text
before it and the text after it (Python `s.split(sep)` takes the first
occurrence here, then recurses on the remainder). -/
def findSplit (sep : Str) : Str → Option (Str × Str)
  | [] => none
  | c :: rest =>
    if sep.isPrefixOf (c :: rest) then some ([], (c :: rest).drop sep.length)
    else
      match findSplit sep rest with
      | some (pre, post) => some (c :: pre, post)
      | none => none

theorem findSplit_post_lt (sep : Str) (hsep : sep ≠ []) :
    ∀ s pre post, findSplit sep s = some (pre, post) → post.length < s.length := by
  intro s
  induction s with
  | nil => intro pre post h; simp [findSplit] at h
  | cons c rest ih =>
    intro pre post h
    have hlen : 0 < sep.length := List.length_pos.mpr hsep
    by_cases hp : sep.isPrefixOf (c :: rest)
    · simp only [findSplit, if_pos hp, Option.some.injEq, Prod.mk.injEq] at h
      obtain ⟨hpre, hpost⟩ := h
      subst hpost
      simp only [List.length_drop, List.length_cons]
      omega
    · simp only [findSplit, if_neg hp] at h
      cases hfs : findSplit sep rest with
      | none => rw [hfs] at h; exact absurd h (by simp)
      | some pq =>
        obtain ⟨p, q⟩ := pq
        rw [hfs] at h
        simp only [Option.some.injEq, Prod.mk.injEq] at h
        obtain ⟨hpre, hpost⟩ := h
        rw [← hpost]
        have := ih p q hfs
        simp only [List.length_cons]
        omega

/-- Python `s.split(sep)` for a non-empty separator: the list of pieces
between consecutive non-overlapping occurrences of `sep`, scanning left to
right.  (Python raises on an empty separator; we return `[s]` there, a case
never reached by the embedded code since all markers are non-empty.) -/
def pySplit (sep s : Str) : List Str :=
  if hsep : sep = [] then [s]
  else
    match hf : findSplit sep s with
    | none => [s]
    | some (pre, post) => pre :: pySplit sep post
termination_by s.length
decreasing_by exact findSplit_post_lt sep hsep s pre post hf

/-- Python `sep in s` (substring containment). -/
def containsSub (sep s : Str) : Bool :=
  (findSplit sep s).isSome

/-- Python `s.replace(old, new)` for non-empty `old`. -/
def pyReplace (old new s : Str) : Str :=
  List.intercalate new (pySplit old s)

/-- The four literal section markers of the audit prompt schema. -/
def thinkingMarker : Str := "**THINKING**:".data

def statusMarker : Str := "**STATUS**:".data

def rationaleMarker : Str := "**RATIONALE**:".data

def evidenceMarker : Str := "**EVIDENCE CITATION**:".data

/-- The four sections extracted from a raw LLM response
(`AuditEngine._parse_structured_response`'s result dict). -/
structure ParsedSections where
  thinking : Str
  status : Str
  rationale : Str
  citation : Str
deriving DecidableEq, Repr

/-- `AuditEngine._parse_structured_response`: split the raw response on the
four literal markers; a section whose marker is absent keeps its default.
`text.split(m)[1]` is guarded by `m in text` in the source, so the index is
always in range; the function is total (the Python `except` clause is dead).
-/
def parse_structured_response (text : Str) : ParsedSections :=
  let thinking :=
    if containsSub thinkingMarker text then
      pyStrip (((pySplit statusMarker ((pySplit thinkingMarker text).getD 1 [])).headD []))
    else "No thinking provided.".data
  let status :=
    if containsSub statusMarker text then
      pyStrip (((pySplit rationaleMarker ((pySplit statusMarker text).getD 1 [])).headD []))
    else "Unknown".data
  let rationale :=
    if containsSub rationaleMarker text then
      pyStrip (((pySplit evidenceMarker ((pySplit rationaleMarker text).getD 1 [])).headD []))
    else []
  let citation :=
    if containsSub evidenceMarker text then
      pyStrip ((pySplit evidenceMarker text).getD 1 [])
    else []
  { thinking := thinking, status := status, rationale := rationale, citation := citation }

/-- Metadata dictionary attached to an indexed chunk.  Python dicts may lack
keys, hence the `Option` fields (`metadata.get(...)`). -/
structure ChunkMeta where
  doc_title : Option Str := none
  category : Option Str := none
  source_file : Option Str := none
deriving DecidableEq, Repr

/-- A langchain `Document`: page content plus a metadata dict. -/
structure Doc where
  metadata : ChunkMeta
  page_content : Str
deriving DecidableEq, Repr

/-- `AuditEngine.format_docs` body for one document: inject the
`source_file` metadata (or the `"Unknown Source"` placeholder) and
single-line the content. -/
def format_doc (d : Doc) : Str :=
  "[Source: ".data ++ d.metadata.source_file.getD "Unknown Source".data ++ "]\n".data
    ++ d.page_content.map (fun ch => if ch = '\n' then ' ' else ch) ++ "\n".data

/-- `AuditEngine.format_docs`: render every retrieved chunk, joined by the
fixed separator. -/
def format_docs (docs : List Doc) : Str :=
  List.intercalate "\n---\n".data (docs.map format_doc)

/-- The `AuditResult` pydantic model. -/
structure AuditResult where
  question : Str
  thinking : Str
  answer : Str
  status : Str
  sources : List Str
deriving DecidableEq, Repr

/-- Pydantic validation of the `sources: List[str]` field: a `None` element
(a chunk whose metadata lacks `source_file`) raises a `ValidationError`. -/
def validateSources : List (Option Str) → Except Str (List Str)
  | [] => Except.ok []
  | none :: _ => Except.error "1 validation error for AuditResult: sources".data
  | some s :: rest => (validateSources rest).map (fun l => s :: l)

/-- `AuditEngine.run_audit`.  The retriever call and the LLM chain call are
oracles that either produce a value or raise; the whole body is one `try`
block whose `except` clause builds the Error-status result. -/
def run_audit (question : Str) (retriever : Except Str (List Doc))
    (llm : Str → Str → Except Str Str) : AuditResult :=
  let attempt : Except Str AuditResult := do
    let docs ← retriever
    let context_text := format_docs docs
    let response_text ← llm context_text question
    let parsed := parse_structured_response response_text
    let unique_sources := (docs.map (fun d => d.metadata.source_file)).dedup
    let sources ← validateSources unique_sources
    pure { question := question, thinking := parsed.thinking,
           answer := parsed.rationale ++ "\n\n".data ++ parsed.citation,
           status := parsed.status, sources := sources }
  match attempt with
  | Except.ok r => r
  | Except.error e =>
      { question := question, thinking := "Error during reasoning.".data,
        answer := "Error running audit: ".data ++ e,
        status := "Error".data, sources := [] }

/-! ## Configuration (src/backend/config.py defaults) -/

def CHUNK_SIZE : Nat := 1000

def CHUNK_OVERLAP : Nat := 200

def RETRIEVAL_K : Nat := 5

/-! ## Ingestion (src/backend/ingestion.py) -/

/-- A page produced by the PDF loader. -/
structure Page where
  page_content : Str
deriving DecidableEq, Repr

/-- Result of `json.loads` on the tagger response, viewed through the two
keys the code reads (`formal_title`, `category`); either may be absent. -/
structure TagDict where
  formal_title : Option Str := none
  category : Option Str := none
deriving DecidableEq, Repr

/-- The hard-coded fallback returned when tagging fails. -/
def fallbackTag : TagDict :=
  { formal_title := some "Unknown Policy".data, category := some "General".data }

/-- The bounded prefix of the first page sent to the tagger LLM
(`first_page_text[:3000]`). -/
def truncate3000 (s : Str) : Str := s.take 3000

/-- `PolicyIngestor._get_actual_metadata`: format the registrar template
with a 3000-character prefix of the first page, invoke the tagger LLM,
strip code fences, parse JSON; on any failure fall back.  `fmt` is the
template's `.format`, `tagger` the LLM call, `json_loads` the JSON parser —
all oracles. -/
def get_actual_metadata (fmt : Str → Str) (tagger : Str → Except Str Str)
    (json_loads : Str → Except Str TagDict) (first_page_text : Str) : TagDict :=
  let attempt : Except Str TagDict := do
    let prompt := fmt (truncate3000 first_page_text)
    let res ← tagger prompt
    let clean := pyReplace "```json".data [] (pyReplace "```".data [] (pyStrip res))
    json_loads clean
  match attempt with
  | Except.ok d => d
  | Except.error _ => fallbackTag

/-- A chunk as produced by the text splitter (page content plus inherited
page metadata, which the code then overwrites/extends). -/
structure RawChunk where
  page_content : Str
deriving DecidableEq, Repr

/-- A chunk after metadata enrichment and banner prepending, as handed to
`vectorstore.add_documents`. -/
structure EnrichedChunk where
  doc_title : Str
  category : Str
  source_file : Str
  page_content : Str
deriving DecidableEq, Repr

/-- The metadata-stamping and banner-prepending loop body of
`PolicyIngestor.ingest_pdf`. -/
def stampChunk (actual_title category original_name : Str) (c : RawChunk) : EnrichedChunk :=
  { doc_title := actual_title, category := category, source_file := original_name,
    page_content :=
      "[[POLICY: ".data ++ actual_title ++ "]]\n".data
        ++ "[[CATEGORY: ".data ++ category ++ "]]\n".data ++ c.page_content }

/-- The external collaborators of `PolicyIngestor`: PDF loader, registrar
template formatting, tagger LLM, JSON parser, text splitter, vector store. -/
structure IngestEnv where
  load : Str → Except Str (List Page)
  fmt : Str → Str
  tagger : Str → Except Str Str
  json_loads : Str → Except Str TagDict
  split : List Page → Except Str (List RawChunk)
  add : List EnrichedChunk → Except Str Unit

/-- `PolicyIngestor.ingest_pdf`: load, tag, split, stamp, index; the whole
body is one `try` block and any exception yields a count of 0. -/
def ingest_pdf (env : IngestEnv) (file_path original_name : Str) : Nat :=
  let attempt : Except Str Nat := do
    let pages ← env.load file_path
    match pages with
    | [] => pure 0
    | first :: _ => do
      let doc_info := get_actual_metadata env.fmt env.tagger env.json_loads first.page_content
      let actual_title := doc_info.formal_title.getD original_name
      let category := doc_info.category.getD "General".data
      let chunks ← env.split pages
      let stamped := chunks.map (stampChunk actual_title category original_name)
      let _ ← env.add stamped
      pure stamped.length
  match attempt with
  | Except.ok n => n
  | Except.error _ => 0

/-- The ZIP entry filter of `PolicyIngestor.ingest_zip`: keep names ending
in `.pdf` case-insensitively and not starting with `__MACOSX`. -/
def isPdfEntry (name : Str) : Bool :=
  ".pdf".data.isSuffixOf (name.map Char.toLower) && !("__MACOSX".data.isPrefixOf name)

/-- `PolicyIngestor.ingest_zip`: ingest each kept entry sequentially,
accumulating the per-file chunk counts.  (Extraction to a temp dir is
identity here: `env.load` is keyed by the entry name.) -/
def ingest_zip (env : IngestEnv) (names : List Str) : Nat :=
  (names.filter isPdfEntry).foldl (fun total f_name => total + ingest_pdf env f_name f_name) 0

/-! ## Retriever construction (src/backend/ingestion.py get_retriever) -/

/-- The contents of `vectorstore.get()`: parallel lists of chunk texts and
metadata dicts. -/
structure ChromaGet where
  documents : List Str
  metadatas : List ChunkMeta
deriving DecidableEq, Repr

/-- Retriever values as assembled by `get_retriever` (vector store
retriever, BM25 lexical retriever, weighted ensemble).  Float weights are
modelled as rationals. -/
inductive Retriever where
  | vector (k : Nat)
  | bm25 (k : Nat) (docs : List Doc)
  | ensemble (retrievers : List Retriever) (weights : List ℚ)

/-- `PolicyIngestor.get_retriever`: the vector retriever alone over an
empty corpus, otherwise a fixed-weight ensemble of BM25 and vector
retrievers, each capped at `RETRIEVAL_K`. -/
def get_retriever (store : ChromaGet) : Retriever :=
  let vector_retriever := Retriever.vector RETRIEVAL_K
  if store.documents.isEmpty then vector_retriever
  else
    let docs := (store.documents.zip store.metadatas).map
      (fun p => { page_content := p.1, metadata := p.2 : Doc })
    Retriever.ensemble [Retriever.bm25 RETRIEVAL_K docs, vector_retriever]
      [(3 : ℚ) / 10, (7 : ℚ) / 10]

/-! ## Question extraction (src/backend/extractor.py) -/

/-- `AuditQuestionExtractor.extract_from_file`: load all pages, join their
text with newlines, run the prompt-LLM-parser chain, read the `questions`
key (defaulting to `[]`); any failure yields `[]`.  `chain` maps the full
document text to the parsed JSON dict, whose `questions` key may be
absent. -/
def extract_from_file (load : Str → Except Str (List Page))
    (chain : Str → Except Str (Option (List Str))) (file_path : Str) : List Str :=
  let attempt : Except Str (List Str) := do
    let pages ← load file_path
    let full_text := List.intercalate "\n".data (pages.map Page.page_content)
    let result ← chain full_text
    pure (result.getD [])
  match attempt with
  | Except.ok qs => qs
  | Except.error _ => []

/-! ## Bulk audit streaming (src/backend/main.py run_bulk_audit_stream) -/

/-- One chunk yielded by `audit_generator`: the keep-alive space `" "`, the
meta line `json.dumps({"type": "meta", ...}) + "\n"`, or a result line
`json.dumps({"type": "result", ...}) + "\n"`. -/
inductive Yield where
  | keepAlive
  | metaLine (total : Nat)
  | resultLine (r : AuditResult)
deriving DecidableEq, Repr

/-- The self-describing records of the NDJSON stream. -/
inductive StreamRecord where
  | meta (total : Nat)
  | result (r : AuditResult)
deriving DecidableEq, Repr

/-- The record carried by a yielded chunk, if any.  A keep-alive space
carries none: it merges into the following line as ignorable leading
whitespace when the NDJSON stream is parsed. -/
def yieldRecord : Yield → Option StreamRecord
  | Yield.keepAlive => none
  | Yield.metaLine n => some (StreamRecord.meta n)
  | Yield.resultLine r => some (StreamRecord.result r)

/-- The sequence of records an NDJSON consumer reads off a yield stream. -/
def streamRecords (ys : List Yield) : List StreamRecord :=
  ys.filterMap yieldRecord

/-- `run_bulk_audit_stream.audit_generator`: one meta line announcing the
total, then per question a keep-alive space followed by that question's
result line.  (`run_audit` is total, so the generator's inner
`try`/`except` — which would emit an Error-status result line — is
unreachable and elided.) -/
def audit_generator (questions : List Str) (retriever : Except Str (List Doc))
    (llm : Str → Str → Except Str Str) : List Yield :=
  Yield.metaLine questions.length ::
    questions.flatMap (fun q =>
      [Yield.keepAlive, Yield.resultLine (run_audit q retriever llm)])

/-- A response of the bulk-audit endpoint: an HTTP error or a streamed
body. -/
inductive BulkResponse where
  | httpError (status : Nat) (detail : Str)
  | stream (yields : List Yield)
deriving DecidableEq, Repr

/-- Number of result records a bulk response delivers. -/
def processedResults : BulkResponse → Nat
  | BulkResponse.httpError _ _ => 0
  | BulkResponse.stream ys =>
      (streamRecords ys).countP (fun r => match r with
        | StreamRecord.result _ => true
        | StreamRecord.meta _ => false)

/-- `run_bulk_audit_stream`: guard on retriever availability, extract the
questions from the uploaded file, 400 when none could be extracted,
otherwise stream the generator. -/
def run_bulk_audit_stream (retrieverAvailable : Bool)
    (load : Str → Except Str (List Page))
    (chain : Str → Except Str (Option (List Str)))
    (path : Str) (retriever : Except Str (List Doc))
    (llm : Str → Str → Except Str Str) : BulkResponse :=
  if !retrieverAvailable then
    BulkResponse.httpError 400 "No policies indexed. Please upload policies first.".data
  else
    let questions := extract_from_file load chain path
    if questions.isEmpty then
      BulkResponse.httpError 400 "Could not extract any questions.".data
    else
      BulkResponse.stream (audit_generator questions retriever llm)

/-! ## Chunker (spec §4.1) -/

/-- Modelled from the spec: the chunker (`RecursiveCharacterTextSplitter`,
an external library whose code is not under src/) per spec §4.1 — split
the concatenated page text into overlapping fixed-length windows of
`chunk_size` characters, consecutive windows sharing `overlap`
characters. -/
def chunkText (chunk_size overlap : Nat) (s : Str) : List Str :=
  if h : chunk_size ≤ overlap ∨ s.length ≤ chunk_size then [s]
  else s.take chunk_size :: chunkText chunk_size overlap (s.drop (chunk_size - overlap))
termination_by s.length
decreasing_by
  simp only [List.length_drop]
  push_neg at h
  omega

/-- Re-join chunks dropping each subsequent chunk's leading overlap
region. -/
def dropOverlapJoin (overlap : Nat) : List Str → Str
  | [] => []
  | first :: rest => first ++ (rest.map (fun c => c.drop overlap)).flatten

/-! ## Supporting lemmas -/

theorem validateSources_eq_map (l : List (Option Str)) (l' : List Str)
    (h : validateSources l = Except.ok l') : l = l'.map some := by
  induction l generalizing l' with
  | nil => simp [validateSources] at h; simp [← h]
  | cons o rest ih =>
    cases o with
    | none => simp [validateSources] at h
    | some s =>
      simp only [validateSources] at h
      cases hv : validateSources rest with
      | error e => rw [hv] at h; simp [Except.map] at h
      | ok r =>
        rw [hv] at h
        simp only [Except.map, Except.ok.injEq] at h
        subst h
        simp [ih r hv]

theorem validateSources_isOk (l : List (Option Str)) (h : ∀ o ∈ l, o.isSome) :
    ∃ l', validateSources l = Except.ok l' := by
  induction l with
  | nil => exact ⟨[], rfl⟩
  | cons o rest ih =>
    cases o with
    | none => exact absurd (h none (by simp)) (by simp)
    | some s =>
      obtain ⟨l', hl'⟩ := ih (fun o ho => h o (by simp [ho]))
      exact ⟨s :: l', by simp [validateSources, hl', Except.map]⟩

theorem validateSources_error_of_none (l : List (Option Str)) (h : none ∈ l) :
    ∃ msg, validateSources l = Except.error msg := by
  induction l with
  | nil => simp at h
  | cons o rest ih =>
    cases o with
    | none => exact ⟨_, rfl⟩
    | some s =>
      have hr : none ∈ rest := by simpa using h
      obtain ⟨msg, hmsg⟩ := ih hr
      exact ⟨msg, by simp [validateSources, hmsg, Except.map]⟩

/-! ## Claim theorems -/

/-- C1: every exception raised anywhere inside `run_audit` — a raising
retriever as well as a raising LLM chain — is caught at the top level and
converted into an `AuditResult` with status `"Error"`, an answer carrying
the error message, and an empty `sources` list; `run_audit` is a total
function and never propagates the exception. -/
theorem run_audit_error_containment (q e : Str) (docs : List Doc)
    (llm : Str → Str → Except Str Str) :
    run_audit q (Except.error e) llm =
      { question := q, thinking := "Error during reasoning.".data,
        answer := "Error running audit: ".data ++ e,
        status := "Error".data, sources := [] }
    ∧ run_audit q (Except.ok docs) (fun _ _ => Except.error e) =
      { question := q, thinking := "Error during reasoning.".data,
        answer := "Error running audit: ".data ++ e,
        status := "Error".data, sources := [] } := by
  constructor
  · rfl
  · rfl

/-- C4: the metadata tagger sends the LLM only a prefix of at most 3000
characters of the first-page text (its result depends only on that
prefix), and on a raising LLM call or malformed JSON it returns the
fallback pair instead of raising. -/
theorem get_actual_metadata_spec (fmt : Str → Str) (tagger : Str → Except Str Str)
    (json_loads : Str → Except Str TagDict) (text resp e : Str) :
    (truncate3000 text <+: text ∧ (truncate3000 text).length ≤ 3000)
    ∧ get_actual_metadata fmt tagger json_loads text =
        get_actual_metadata fmt tagger json_loads (truncate3000 text)
    ∧ get_actual_metadata fmt (fun _ => Except.error e) json_loads text = fallbackTag
    ∧ get_actual_metadata fmt (fun _ => Except.ok resp) (fun _ => Except.error e) text
        = fallbackTag := by
  refine ⟨⟨?_, ?_⟩, ?_, rfl, rfl⟩
  · exact List.take_prefix 3000 text
  · simp only [truncate3000, List.length_take]
    omega
  · simp [get_actual_metadata, truncate3000, List.take_take]

/-- C6: over an empty corpus `get_retriever` returns the vector retriever
alone; over a non-empty corpus it returns the weighted ensemble of the
BM25 lexical retriever (weight 0.3) and the vector retriever (weight 0.7),
each capped at `RETRIEVAL_K` results. -/
theorem get_retriever_spec (store : ChromaGet) :
    (store.documents = [] → get_retriever store = Retriever.vector RETRIEVAL_K)
    ∧ (store.documents ≠ [] →
        get_retriever store =
          Retriever.ensemble
            [Retriever.bm25 RETRIEVAL_K
              ((store.documents.zip store.metadatas).map
                (fun p => { page_content := p.1, metadata := p.2 : Doc })),
             Retriever.vector RETRIEVAL_K]
            [(3 : ℚ) / 10, (7 : ℚ) / 10]) := by
  constructor
  · intro h
    simp [get_retriever, h]
  · intro h
    simp [get_retriever, List.isEmpty_iff, h]

/-- C6 witness: both branches at concrete stores. -/
theorem get_retriever_spec_witness :
    get_retriever { documents := [], metadatas := [] } = Retriever.vector RETRIEVAL_K
    ∧ get_retriever { documents := ["a".data], metadatas := [{}] } =
        Retriever.ensemble
          [Retriever.bm25 RETRIEVAL_K [{ page_content := "a".data, metadata := {} }],
           Retriever.vector RETRIEVAL_K]
          [(3 : ℚ) / 10, (7 : ℚ) / 10] :=
  ⟨(get_retriever_spec _).1 rfl,
   (get_retriever_spec { documents := ["a".data], metadatas := [{}] }).2 (by simp)⟩

theorem run_audit_question (q : Str) (r : Except Str (List Doc))
    (llm : Str → Str → Except Str Str) : (run_audit q r llm).question = q := by
  cases r with
  | error e => rfl
  | ok docs =>
    cases hl : llm (format_docs docs) q with
    | error e => simp [run_audit, Bind.bind, Except.bind, hl]
    | ok resp =>
      cases hv : validateSources ((docs.map (fun d => d.metadata.source_file)).dedup) with
      | error e => simp [run_audit, Bind.bind, Except.bind, hl, hv]
      | ok l => simp [run_audit, Bind.bind, Except.bind, hl, hv, Pure.pure, Except.pure]

theorem records_flatMap (qs : List Str) (g : Str → AuditResult) :
    (qs.flatMap (fun q => [Yield.keepAlive, Yield.resultLine (g q)])).filterMap yieldRecord
      = qs.map (fun q => StreamRecord.result (g q)) := by
  induction qs with
  | nil => rfl
  | cons q rest ih => simp [List.flatMap_cons, List.filterMap_append, yieldRecord, ih]

/-- C7: the bulk-audit generator's first emitted unit is the meta record
carrying the total question count; the record stream an NDJSON consumer
reads is that meta record followed by exactly one result record per
extracted question, in order, each carrying its question; every yielded
chunk other than a record line is the keep-alive space, which parses away
as leading whitespace of the following line. -/
theorem audit_generator_stream_shape (qs : List Str) (retriever : Except Str (List Doc))
    (llm : Str → Str → Except Str Str) :
    (audit_generator qs retriever llm).head? = some (Yield.metaLine qs.length)
    ∧ streamRecords (audit_generator qs retriever llm) =
        StreamRecord.meta qs.length ::
          qs.map (fun q => StreamRecord.result (run_audit q retriever llm))
    ∧ (∀ q, (run_audit q retriever llm).question = q)
    ∧ ∀ y ∈ audit_generator qs retriever llm,
        y = Yield.keepAlive ∨ ∃ r, yieldRecord y = some r := by
  refine ⟨rfl, ?_, fun q => run_audit_question q retriever llm, ?_⟩
  · simp [audit_generator, streamRecords, yieldRecord, records_flatMap]
  · intro y hy
    cases y with
    | keepAlive => exact Or.inl rfl
    | metaLine n => exact Or.inr ⟨StreamRecord.meta n, rfl⟩
    | resultLine r => exact Or.inr ⟨StreamRecord.result r, rfl⟩

/-- C8: the question extractor returns the empty list when loading fails,
when the LLM chain fails, or when the parsed JSON lacks the `questions`
key; and whenever extraction yields no questions the bulk endpoint answers
a well-formed 400 response — zero processed result records — instead of
crashing. -/
theorem extractor_empty_and_bulk_zero :
    (∀ (chain : Str → Except Str (Option (List Str))) (path e : Str),
        extract_from_file (fun _ => Except.error e) chain path = [])
    ∧ (∀ (load : Str → Except Str (List Page)) (path e : Str),
        extract_from_file load (fun _ => Except.error e) path = [])
    ∧ (∀ (load : Str → Except Str (List Page)) (path : Str),
        extract_from_file load (fun _ => Except.ok none) path = [])
    ∧ (∀ (load : Str → Except Str (List Page))
        (chain : Str → Except Str (Option (List Str)))
        (path : Str) (retriever : Except Str (List Doc))
        (llm : Str → Str → Except Str Str),
        extract_from_file load chain path = [] →
          run_bulk_audit_stream true load chain path retriever llm =
            BulkResponse.httpError 400 "Could not extract any questions.".data
          ∧ processedResults (run_bulk_audit_stream true load chain path retriever llm)
              = 0) := by
  refine ⟨fun chain path e => rfl, ?_, ?_, ?_⟩
  · intro load path e
    cases hl : load path with
    | error e' => simp [extract_from_file, Bind.bind, Except.bind, hl]
    | ok pages => simp [extract_from_file, Bind.bind, Except.bind, hl]
  · intro load path
    cases hl : load path with
    | error e' => simp [extract_from_file, Bind.bind, Except.bind, hl]
    | ok pages =>
      simp [extract_from_file, Bind.bind, Except.bind, hl, Pure.pure, Except.pure]
  · intro load chain path retriever llm h
    constructor
    · simp [run_bulk_audit_stream, h]
    · simp [run_bulk_audit_stream, h, processedResults]

/-- C8 witness: a failing loader gives an empty question list, and the
endpoint then returns the 400 response processing zero items. -/
theorem extractor_empty_and_bulk_zero_witness :
    extract_from_file (fun _ => Except.error "boom".data)
        (fun _ => Except.ok (some ["q1".data])) "f.pdf".data = []
    ∧ run_bulk_audit_stream true (fun _ => Except.error "boom".data)
        (fun _ => Except.ok (some ["q1".data])) "f.pdf".data
        (Except.ok []) (fun _ _ => Except.ok []) =
        BulkResponse.httpError 400 "Could not extract any questions.".data :=
  ⟨extractor_empty_and_bulk_zero.1 _ _ _,
   (extractor_empty_and_bulk_zero.2.2.2 _ _ _ (Except.ok [])
      (fun _ _ => Except.ok [])
      (extractor_empty_and_bulk_zero.1 _ _ _)).1⟩

/-- C3: on a successful audit call the answer is the parsed rationale, two
newlines, then the parsed citation, and `sources` is the deduplicated set
of `source_file` values over all chunks the retriever returned — not
filtered to chunks cited in the answer text. -/
theorem run_audit_success_result (q resp : Str) (docs : List Doc)
    (h : ∀ d ∈ docs, (d.metadata.source_file).isSome) :
    (run_audit q (Except.ok docs) (fun _ _ => Except.ok resp)).answer
      = (parse_structured_response resp).rationale ++ "\n\n".data
          ++ (parse_structured_response resp).citation
    ∧ (run_audit q (Except.ok docs) (fun _ _ => Except.ok resp)).status
      = (parse_structured_response resp).status
    ∧ (run_audit q (Except.ok docs) (fun _ _ => Except.ok resp)).sources.Nodup
    ∧ ∀ x, x ∈ (run_audit q (Except.ok docs) (fun _ _ => Except.ok resp)).sources
        ↔ ∃ d ∈ docs, d.metadata.source_file = some x := by
  have hall : ∀ o ∈ (docs.map (fun d => d.metadata.source_file)).dedup, o.isSome := by
    intro o ho
    obtain ⟨d, hd, rfl⟩ := List.mem_map.mp (List.mem_dedup.mp ho)
    exact h d hd
  obtain ⟨l', hv⟩ := validateSources_isOk _ hall
  have hmap := validateSources_eq_map _ _ hv
  have hrun : run_audit q (Except.ok docs) (fun _ _ => Except.ok resp) =
      { question := q, thinking := (parse_structured_response resp).thinking,
        answer := (parse_structured_response resp).rationale ++ "\n\n".data
          ++ (parse_structured_response resp).citation,
        status := (parse_structured_response resp).status, sources := l' } := by
    simp [run_audit, Bind.bind, Except.bind, hv, Pure.pure, Except.pure]
  rw [hrun]
  refine ⟨rfl, rfl, ?_, ?_⟩
  · have hnd : ((docs.map (fun d => d.metadata.source_file)).dedup).Nodup :=
      List.nodup_dedup _
    rw [hmap] at hnd
    exact hnd.of_map
  · intro x
    constructor
    · intro hx
      have : some x ∈ l'.map some := List.mem_map.mpr ⟨x, hx, rfl⟩
      rw [← hmap] at this
      obtain ⟨d, hd, hdx⟩ := List.mem_map.mp (List.mem_dedup.mp this)
      exact ⟨d, hd, hdx⟩
    · intro ⟨d, hd, hdx⟩
      have : some x ∈ (docs.map (fun d => d.metadata.source_file)).dedup :=
        List.mem_dedup.mpr (List.mem_map.mpr ⟨d, hd, hdx⟩)
      rw [hmap] at this
      obtain ⟨y, hy, hyx⟩ := List.mem_map.mp this
      cases hyx
      exact hy

/-- C3 witness: a successful audit over one chunk from `a.pdf`. -/
theorem run_audit_success_result_witness :
    (run_audit "q?".data
        (Except.ok [{ metadata := { source_file := some "a.pdf".data },
                      page_content := "body".data }])
        (fun _ _ => Except.ok "R".data)).answer
      = (parse_structured_response "R".data).rationale ++ "\n\n".data
          ++ (parse_structured_response "R".data).citation
    ∧ (run_audit "q?".data
        (Except.ok [{ metadata := { source_file := some "a.pdf".data },
                      page_content := "body".data }])
        (fun _ _ => Except.ok "R".data)).sources.Nodup
    ∧ "a.pdf".data ∈ (run_audit "q?".data
        (Except.ok [{ metadata := { source_file := some "a.pdf".data },
                      page_content := "body".data }])
        (fun _ _ => Except.ok "R".data)).sources :=
  ⟨(run_audit_success_result "q?".data "R".data _ (by decide)).1,
   (run_audit_success_result "q?".data "R".data _ (by decide)).2.2.1,
   ((run_audit_success_result "q?".data "R".data _ (by decide)).2.2.2 "a.pdf".data).mpr
     ⟨{ metadata := { source_file := some "a.pdf".data }, page_content := "body".data },
      by simp, rfl⟩⟩

/-- C10: when some retrieved chunk's metadata lacks `source_file`, the
`None` collected into the sources list fails the `List[str]` validation
inside the guarded block, so `run_audit` returns the Error-status result
with empty sources — even though `format_doc` itself renders such a chunk
with the `"Unknown Source"` placeholder. -/
theorem run_audit_missing_source_file (q : Str) (docs : List Doc)
    (llm : Str → Str → Except Str Str)
    (h : ∃ d ∈ docs, d.metadata.source_file = none) :
    (run_audit q (Except.ok docs) llm).status = "Error".data
    ∧ (run_audit q (Except.ok docs) llm).sources = []
    ∧ ∀ d : Doc, d.metadata.source_file = none →
        format_doc d = "[Source: Unknown Source]\n".data
          ++ d.page_content.map (fun ch => if ch = '\n' then ' ' else ch)
          ++ "\n".data := by
  have hfmt : ∀ d : Doc, d.metadata.source_file = none →
      format_doc d = "[Source: Unknown Source]\n".data
        ++ d.page_content.map (fun ch => if ch = '\n' then ' ' else ch)
        ++ "\n".data := by
    intro d hd
    have hlit : "[Source: ".data ++ "Unknown Source".data ++ "]\n".data
        = "[Source: Unknown Source]\n".data := by decide
    simp only [format_doc, hd, Option.getD, List.append_assoc] at *
    rw [← hlit]
    simp [List.append_assoc]
  obtain ⟨d, hd, hdn⟩ := h
  have hnone : none ∈ (docs.map (fun d => d.metadata.source_file)).dedup :=
    List.mem_dedup.mpr (List.mem_map.mpr ⟨d, hd, hdn⟩)
  obtain ⟨msg, hverr⟩ := validateSources_error_of_none _ hnone
  cases hl : llm (format_docs docs) q with
  | error e =>
    refine ⟨?_, ?_, hfmt⟩ <;> simp [run_audit, Bind.bind, Except.bind, hl]
  | ok resp =>
    refine ⟨?_, ?_, hfmt⟩ <;> simp [run_audit, Bind.bind, Except.bind, hl, hverr]

/-- C10 witness: one chunk whose metadata lacks `source_file`. -/
theorem run_audit_missing_source_file_witness :
    (run_audit "q?".data
        (Except.ok [{ metadata := {}, page_content := "body".data }])
        (fun _ _ => Except.ok "R".data)).status = "Error".data
    ∧ (run_audit "q?".data
        (Except.ok [{ metadata := {}, page_content := "body".data }])
        (fun _ _ => Except.ok "R".data)).sources = [] :=
  ⟨(run_audit_missing_source_file "q?".data _ (fun _ _ => Except.ok "R".data)
      (by decide)).1,
   (run_audit_missing_source_file "q?".data _ (fun _ _ => Except.ok "R".data)
      (by decide)).2.1⟩

theorem foldl_add_eq_sum (g : Str → Nat) (l : List Str) :
    ∀ init, l.foldl (fun t f => t + g f) init = init + (l.map g).sum := by
  induction l with
  | nil => intro init; simp
  | cons f rest ih =>
    intro init
    simp only [List.foldl_cons, List.map_cons, List.sum_cons, ih (init + g f)]
    omega

/-- C5 counterexample: an exception raised during tagging does NOT make
`ingest_pdf` return 0 — it is caught one level deeper, inside
`_get_actual_metadata`, which substitutes the fallback metadata, and
ingestion of the document proceeds and returns its positive chunk count. -/
theorem ingest_pdf_tagging_failure_counterexample :
    ingest_pdf
      { load := fun _ => Except.ok [{ page_content := "hello".data }],
        fmt := id,
        tagger := fun _ => Except.error "LLM boom".data,
        json_loads := fun _ => Except.ok {},
        split := fun _ => Except.ok [{ page_content := "hello".data }],
        add := fun _ => Except.ok () }
      "a.pdf".data "a.pdf".data = 1
    ∧ (1 : Nat) ≠ 0 :=
  ⟨rfl, by decide⟩

/-- C5 (amended): any exception during loading, chunking or indexing of a
single document is caught by `ingest_pdf`, which returns 0 chunks for that
document; an exception during tagging is caught inside the tagger and
yields the fallback metadata, so ingestion of the document continues and
returns its chunk count; ZIP-level ingestion ingests every kept entry and
returns the sum of the per-file counts. -/
theorem ingest_error_containment (env : IngestEnv) (fp name e : Str)
    (pages : List Page) (first : Page) (chunks : List RawChunk) (names : List Str) :
    ingest_pdf { env with load := fun _ => Except.error e } fp name = 0
    ∧ ingest_pdf { env with
        load := fun _ => Except.ok pages
        split := fun _ => Except.error e } fp name = 0
    ∧ ingest_pdf { env with
        load := fun _ => Except.ok pages
        split := fun _ => Except.ok chunks
        add := fun _ => Except.error e } fp name = 0
    ∧ ingest_pdf { env with
        load := fun _ => Except.ok (first :: pages)
        tagger := fun _ => Except.error e
        split := fun _ => Except.ok chunks
        add := fun _ => Except.ok () } fp name
        = chunks.length
    ∧ ingest_zip env names =
        ((names.filter isPdfEntry).map (fun f => ingest_pdf env f f)).sum := by
  refine ⟨rfl, ?_, ?_, ?_, ?_⟩
  · cases pages with
    | nil => rfl
    | cons p ps => rfl
  · cases pages with
    | nil => rfl
    | cons p ps => rfl
  · simp [ingest_pdf, get_actual_metadata, Bind.bind, Except.bind, Pure.pure,
      Except.pure, List.length_map]
  · simp only [ingest_zip]
    simpa using foldl_add_eq_sum (fun f => ingest_pdf env f f) (names.filter isPdfEntry) 0

/-! ## Chunker reconstruction (C9) -/

theorem chunkText_single (cs ov : Nat) (s : Str) (h : cs ≤ ov ∨ s.length ≤ cs) :
    chunkText cs ov s = [s] := by
  rw [chunkText, dif_pos h]

theorem chunkText_cons (cs ov : Nat) (s : Str) (h1 : ov < cs) (h2 : cs < s.length) :
    chunkText cs ov s = s.take cs :: chunkText cs ov (s.drop (cs - ov)) := by
  rw [chunkText, dif_neg]
  push_neg
  exact ⟨h1, h2⟩

theorem chunkText_head_len (cs ov : Nat) (s : Str) (h1 : ov < cs) (h2 : ov < s.length) :
    ∃ hd tl, chunkText cs ov s = hd :: tl ∧ ov ≤ hd.length := by
  by_cases hc : s.length ≤ cs
  · exact ⟨s, [], chunkText_single cs ov s (Or.inr hc), Nat.le_of_lt h2⟩
  · push_neg at hc
    refine ⟨s.take cs, _, chunkText_cons cs ov s h1 hc, ?_⟩
    simp only [List.length_take]
    omega

theorem chunk_rejoin_aux (cs ov : Nat) (h : ov < cs) :
    ∀ n s, List.length s ≤ n → dropOverlapJoin ov (chunkText cs ov s) = s := by
  intro n
  induction n with
  | zero =>
    intro s hs
    have hnil : s = [] := List.eq_nil_of_length_eq_zero (Nat.le_zero.mp hs)
    subst hnil
    rw [chunkText_single cs ov [] (Or.inr (by simp))]
    simp [dropOverlapJoin]
  | succ n ih =>
    intro s hs
    by_cases hc : s.length ≤ cs
    · rw [chunkText_single cs ov s (Or.inr hc)]
      simp [dropOverlapJoin]
    · push_neg at hc
      rw [chunkText_cons cs ov s h hc]
      have htlen : (s.drop (cs - ov)).length = s.length - (cs - ov) :=
        List.length_drop _ _
      have hov_t : ov < (s.drop (cs - ov)).length := by omega
      obtain ⟨hd, tl, hct, hhd⟩ := chunkText_head_len cs ov (s.drop (cs - ov)) h hov_t
      have iht : dropOverlapJoin ov (chunkText cs ov (s.drop (cs - ov)))
          = s.drop (cs - ov) := ih (s.drop (cs - ov)) (by omega)
      rw [hct] at iht
      rw [hct]
      simp only [dropOverlapJoin, List.map_cons, List.flatten_cons] at iht ⊢
      have hdrop : hd.drop ov ++ ((tl.map (fun c => c.drop ov)).flatten)
          = (s.drop (cs - ov)).drop ov := by
        rw [← iht, List.drop_append_eq_append_drop]
        have : ov - hd.length = 0 := by omega
        rw [this, List.drop_zero]
      rw [hdrop, List.drop_drop]
      have hcs : cs - ov + ov = cs := by omega
      rw [hcs, List.take_append_drop]

/-- C9: for every input text and all window parameters with
`overlap < chunk_size`, re-joining all produced chunks after dropping each
subsequent chunk's leading overlap region reconstructs the original text.
(The chunker is modelled from spec §4.1, the splitter being an external
library.) -/
theorem chunk_overlap_reconstruction (chunk_size overlap : Nat) (s : Str)
    (h : overlap < chunk_size) :
    dropOverlapJoin overlap (chunkText chunk_size overlap s) = s :=
  chunk_rejoin_aux chunk_size overlap h s.length s (Nat.le_refl _)

/-- C9 witness: reconstruction at `chunk_size = 5`, `overlap = 2`. -/
theorem chunk_overlap_reconstruction_witness :
    dropOverlapJoin 2 (chunkText 5 2 "abcdefghijk".data) = "abcdefghijk".data :=
  chunk_overlap_reconstruction 5 2 "abcdefghijk".data (by decide)

/-- C7 witness: the generator at one concrete question. -/
theorem audit_generator_stream_shape_witness :
    (audit_generator ["q1".data] (Except.error "x".data)
        (fun _ _ => Except.error "y".data)).head? = some (Yield.metaLine 1)
    ∧ (Yield.metaLine 1 = Yield.keepAlive
        ∨ ∃ r, yieldRecord (Yield.metaLine 1) = some r) :=
  ⟨(audit_generator_stream_shape ["q1".data] (Except.error "x".data)
      (fun _ _ => Except.error "y".data)).1,
   (audit_generator_stream_shape ["q1".data] (Except.error "x".data)
      (fun _ _ => Except.error "y".data)).2.2.2 (Yield.metaLine 1)
     (by simp [audit_generator])⟩

/-! ## Splitting lemmas for the response parser (C2) -/

theorem isPrefixOf_append_self (sep b : Str) : sep.isPrefixOf (sep ++ b) = true := by
  induction sep with
  | nil => simp [List.isPrefixOf]
  | cons a as ih => simp [List.isPrefixOf, ih]

theorem findSplit_cons (sep : Str) (ch : Char) (rest : Str) :
    findSplit sep (ch :: rest) =
      if sep.isPrefixOf (ch :: rest) then some ([], (ch :: rest).drop sep.length)
      else
        match findSplit sep rest with
        | some (pre, post) => some (ch :: pre, post)
        | none => none := rfl

theorem findSplit_self (sep b : Str) (h : sep ≠ []) :
    findSplit sep (sep ++ b) = some ([], b) := by
  cases sep with
  | nil => exact absurd rfl h
  | cons s0 stail =>
    have hp : (s0 :: stail).isPrefixOf (s0 :: (stail ++ b)) = true := by
      simpa using isPrefixOf_append_self (s0 :: stail) b
    rw [List.cons_append, findSplit_cons, if_pos hp]
    have hd : (s0 :: (stail ++ b)).drop (s0 :: stail).length = b := by
      simpa using List.drop_left stail b
    rw [hd]

/-- A non-empty suffix of `x` never begins an occurrence of `needle`,
whatever follows `x`. -/
def SafeIn (needle x : Str) : Prop :=
  ∀ x2 z, x2 <:+ x → x2 ≠ [] → needle.isPrefixOf (x2 ++ z) = false

/-- `needle` occurs nowhere in `y` (no suffix of `y` begins with it). -/
def NoOcc (needle y : Str) : Prop :=
  ∀ s2, s2 <:+ y → needle.isPrefixOf s2 = false

theorem noMatch_of_no_overlap (needle : Str) :
    ∀ x2 : Str, x2.isPrefixOf needle = false → needle.isPrefixOf x2 = false →
      ∀ z, needle.isPrefixOf (x2 ++ z) = false := by
  induction needle with
  | nil => intro x2 h1 h2 z; simp [List.isPrefixOf] at h2
  | cons n ns ih =>
    intro x2 h1 h2 z
    cases x2 with
    | nil => simp [List.isPrefixOf] at h1
    | cons ch cs =>
      cases hnc : (n == ch) with
      | false => simp [List.isPrefixOf, hnc]
      | true =>
        have hn : n = ch := beq_iff_eq.mp hnc
        subst hn
        simp only [List.isPrefixOf, beq_self_eq_true, Bool.true_and] at h1 h2
        simp only [List.cons_append, List.isPrefixOf, beq_self_eq_true, Bool.true_and]
        exact ih cs h1 h2 z

theorem suffix_append_cases (x y s2 : Str) (h : s2 <:+ x ++ y) :
    s2 <:+ y ∨ ∃ x2, x2 <:+ x ∧ x2 ≠ [] ∧ s2 = x2 ++ y := by
  induction x generalizing s2 with
  | nil => exact Or.inl (by simpa using h)
  | cons ch x' ih =>
    rw [List.cons_append, List.suffix_cons_iff] at h
    cases h with
    | inl heq =>
      exact Or.inr ⟨ch :: x', List.suffix_refl _, List.cons_ne_nil ch x', heq⟩
    | inr hsuf =>
      cases ih s2 hsuf with
      | inl h' => exact Or.inl h'
      | inr h' =>
        obtain ⟨x2, hx2, hne, rfl⟩ := h'
        exact Or.inr ⟨x2, hx2.trans (List.suffix_cons ch x'), hne, rfl⟩

theorem SafeIn_append (needle x y : Str) (hx : SafeIn needle x) (hy : SafeIn needle y) :
    SafeIn needle (x ++ y) := by
  intro x2 z hsuf hne
  cases suffix_append_cases x y x2 hsuf with
  | inl h' =>
    cases x2 with
    | nil => exact absurd rfl hne
    | cons ch cs => exact hy (ch :: cs) z h' hne
  | inr h' =>
    obtain ⟨u, hu, hune, rfl⟩ := h'
    rw [List.append_assoc]
    exact hx u (y ++ z) hu hune

theorem NoOcc_append (needle x y : Str) (hx : SafeIn needle x) (hy : NoOcc needle y) :
    NoOcc needle (x ++ y) := by
  intro s2 hsuf
  cases suffix_append_cases x y s2 hsuf with
  | inl h' => exact hy s2 h'
  | inr h' =>
    obtain ⟨u, hu, hune, rfl⟩ := h'
    exact hx u y hu hune

theorem NoOcc_nil (needle : Str) (h : needle ≠ []) : NoOcc needle [] := by
  intro s2 hsuf
  rw [List.suffix_nil.mp hsuf]
  cases needle with
  | nil => exact absurd rfl h
  | cons n ns => simp [List.isPrefixOf]

theorem NoOcc_of_SafeIn (needle x : Str) (hn : needle ≠ []) (hx : SafeIn needle x) :
    NoOcc needle x := by
  have := NoOcc_append needle x [] hx (NoOcc_nil needle hn)
  simpa using this

theorem SafeIn_starFree (rest0 t : Str) (ht : '*' ∉ t) : SafeIn ('*' :: rest0) t := by
  intro x2 z hsuf hne
  cases x2 with
  | nil => exact absurd rfl hne
  | cons ch cs =>
    have hc : ch ∈ t := hsuf.subset (by simp)
    have hcne : ('*' == ch) = false := by
      refine beq_eq_false_iff_ne.mpr fun h => ht ?_
      rw [h]; exact hc
    simp [List.isPrefixOf, hcne]

theorem SafeIn_starFree' (needle t : Str) (hn : needle.head? = some '*') (ht : '*' ∉ t) :
    SafeIn needle t := by
  cases needle with
  | nil => simp at hn
  | cons n ns =>
    have : n = '*' := by simpa using hn
    subst this
    exact SafeIn_starFree ns t ht

/-- A decidable sufficient condition for no occurrence of `needle` starting
inside `hay` surviving into any continuation: every non-empty suffix of
`hay` mismatches `needle` within the compared region. -/
def noOverlapB (needle hay : Str) : Bool :=
  hay.tails.all (fun x2 => x2.isEmpty || (!(x2.isPrefixOf needle) && !(needle.isPrefixOf x2)))

theorem SafeIn_of_noOverlapB (needle hay : Str) (h : noOverlapB needle hay = true) :
    SafeIn needle hay := by
  intro x2 z hsuf hne
  have hmem : x2 ∈ hay.tails := (List.mem_tails _ _).mpr hsuf
  have hx2 := List.all_eq_true.mp h x2 hmem
  have hxe : x2.isEmpty = false := by
    cases x2 with
    | nil => exact absurd rfl hne
    | cons a l => rfl
  simp only [hxe, Bool.false_or, Bool.and_eq_true, Bool.not_eq_true'] at hx2
  exact noMatch_of_no_overlap needle x2 hx2.1 hx2.2 z

theorem findSplit_none_of_NoOcc (needle s : Str) (h : NoOcc needle s) :
    findSplit needle s = none := by
  induction s with
  | nil => rfl
  | cons ch rest ih =>
    have hstep : needle.isPrefixOf (ch :: rest) = false :=
      h (ch :: rest) (List.suffix_refl _)
    have hr : NoOcc needle rest := fun s2 hs => h s2 (hs.trans (List.suffix_cons ch rest))
    simp [findSplit, hstep, ih hr]

theorem findSplit_boundary (needle a b : Str) (hn : needle ≠ []) (ha : SafeIn needle a) :
    findSplit needle (a ++ needle ++ b) = some (a, b) := by
  induction a with
  | nil => simpa using findSplit_self needle b hn
  | cons ch a' ih =>
    have hstep : needle.isPrefixOf (ch :: ((a' ++ needle) ++ b)) = false := by
      have := ha (ch :: a') (needle ++ b) (List.suffix_refl _) (List.cons_ne_nil ch a')
      simpa [List.append_assoc] using this
    have ha' : SafeIn needle a' :=
      fun x2 z hs hne => ha x2 z (hs.trans (List.suffix_cons ch a')) hne
    rw [List.cons_append, List.cons_append, findSplit_cons,
      if_neg (fun hco => Bool.false_ne_true (hstep ▸ hco)), ih ha']

theorem pySplit_of_findSplit_some (sep s pre post : Str) (hsep : sep ≠ [])
    (h : findSplit sep s = some (pre, post)) :
    pySplit sep s = pre :: pySplit sep post := by
  rw [pySplit, dif_neg hsep]
  split
  · rename_i heq
    rw [h] at heq
    exact absurd heq (by simp)
  · rename_i p q heq
    rw [h] at heq
    simp only [Option.some.injEq, Prod.mk.injEq] at heq
    rw [heq.1, heq.2]

theorem pySplit_of_findSplit_none (sep s : Str) (h : findSplit sep s = none) :
    pySplit sep s = [s] := by
  by_cases hsep : sep = []
  · rw [pySplit, dif_pos hsep]
  · rw [pySplit, dif_neg hsep]
    split
    · rfl
    · rename_i p q heq
      rw [h] at heq
      exact absurd heq (by simp)

theorem parse_canonical (t s r c : Str)
    (ht : '*' ∉ t) (hs : '*' ∉ s) (hr : '*' ∉ r) (hc : '*' ∉ c) :
    parse_structured_response
        (thinkingMarker ++ t ++ statusMarker ++ s ++ rationaleMarker ++ r
          ++ evidenceMarker ++ c)
      = { thinking := pyStrip t, status := pyStrip s,
          rationale := pyStrip r, citation := pyStrip c } := by
  have hn1 : thinkingMarker ≠ [] := by decide
  have hn2 : statusMarker ≠ [] := by decide
  have hn3 : rationaleMarker ≠ [] := by decide
  have hn4 : evidenceMarker ≠ [] := by decide
  rw [show thinkingMarker ++ t ++ statusMarker ++ s ++ rationaleMarker ++ r
        ++ evidenceMarker ++ c
      = thinkingMarker ++ (t ++ (statusMarker ++ (s ++ (rationaleMarker
          ++ (r ++ (evidenceMarker ++ c)))))) from by simp [List.append_assoc]]
  set tl3 : Str := r ++ (evidenceMarker ++ c) with htl3
  set tl2 : Str := s ++ (rationaleMarker ++ tl3) with htl2
  set rest : Str := t ++ (statusMarker ++ tl2) with hrest
  -- SafeIn facts for star-free sections against each marker
  have sf1t : SafeIn thinkingMarker t := SafeIn_starFree' _ t (by decide) ht
  have sf1s : SafeIn thinkingMarker s := SafeIn_starFree' _ s (by decide) hs
  have sf1r : SafeIn thinkingMarker r := SafeIn_starFree' _ r (by decide) hr
  have sf1c : SafeIn thinkingMarker c := SafeIn_starFree' _ c (by decide) hc
  have sf2t : SafeIn statusMarker t := SafeIn_starFree' _ t (by decide) ht
  have sf2s : SafeIn statusMarker s := SafeIn_starFree' _ s (by decide) hs
  have sf2r : SafeIn statusMarker r := SafeIn_starFree' _ r (by decide) hr
  have sf2c : SafeIn statusMarker c := SafeIn_starFree' _ c (by decide) hc
  have sf3t : SafeIn rationaleMarker t := SafeIn_starFree' _ t (by decide) ht
  have sf3s : SafeIn rationaleMarker s := SafeIn_starFree' _ s (by decide) hs
  have sf3r : SafeIn rationaleMarker r := SafeIn_starFree' _ r (by decide) hr
  have sf3c : SafeIn rationaleMarker c := SafeIn_starFree' _ c (by decide) hc
  have sf4t : SafeIn evidenceMarker t := SafeIn_starFree' _ t (by decide) ht
  have sf4s : SafeIn evidenceMarker s := SafeIn_starFree' _ s (by decide) hs
  have sf4r : SafeIn evidenceMarker r := SafeIn_starFree' _ r (by decide) hr
  have sf4c : SafeIn evidenceMarker c := SafeIn_starFree' _ c (by decide) hc
  -- SafeIn facts between distinct markers
  have sf12 : SafeIn thinkingMarker statusMarker := SafeIn_of_noOverlapB _ _ (by decide)
  have sf13 : SafeIn thinkingMarker rationaleMarker := SafeIn_of_noOverlapB _ _ (by decide)
  have sf14 : SafeIn thinkingMarker evidenceMarker := SafeIn_of_noOverlapB _ _ (by decide)
  have sf21 : SafeIn statusMarker thinkingMarker := SafeIn_of_noOverlapB _ _ (by decide)
  have sf23 : SafeIn statusMarker rationaleMarker := SafeIn_of_noOverlapB _ _ (by decide)
  have sf24 : SafeIn statusMarker evidenceMarker := SafeIn_of_noOverlapB _ _ (by decide)
  have sf31 : SafeIn rationaleMarker thinkingMarker := SafeIn_of_noOverlapB _ _ (by decide)
  have sf32 : SafeIn rationaleMarker statusMarker := SafeIn_of_noOverlapB _ _ (by decide)
  have sf34 : SafeIn rationaleMarker evidenceMarker := SafeIn_of_noOverlapB _ _ (by decide)
  have sf41 : SafeIn evidenceMarker thinkingMarker := SafeIn_of_noOverlapB _ _ (by decide)
  have sf42 : SafeIn evidenceMarker statusMarker := SafeIn_of_noOverlapB _ _ (by decide)
  have sf43 : SafeIn evidenceMarker rationaleMarker := SafeIn_of_noOverlapB _ _ (by decide)
  -- marker 1: first occurrence at position 0, none afterwards
  have hfs1T : findSplit thinkingMarker (thinkingMarker ++ rest) = some ([], rest) :=
    findSplit_self thinkingMarker rest hn1
  have hno1rest : NoOcc thinkingMarker rest := by
    rw [hrest, htl2, htl3]
    exact NoOcc_of_SafeIn _ _ hn1
      (SafeIn_append _ _ _ sf1t (SafeIn_append _ _ _ sf12
        (SafeIn_append _ _ _ sf1s (SafeIn_append _ _ _ sf13
          (SafeIn_append _ _ _ sf1r (SafeIn_append _ _ _ sf14 sf1c))))))
  have hps1T : pySplit thinkingMarker (thinkingMarker ++ rest) = [[], rest] := by
    rw [pySplit_of_findSplit_some _ _ _ _ hn1 hfs1T,
      pySplit_of_findSplit_none _ _ (findSplit_none_of_NoOcc _ _ hno1rest)]
  -- marker 2 inside rest (for the thinking section)
  have hfs2rest : findSplit statusMarker rest = some (t, tl2) := by
    have h' := findSplit_boundary statusMarker t tl2 hn2 sf2t
    rw [List.append_assoc] at h'
    rw [hrest]
    exact h'
  have hps2rest : pySplit statusMarker rest = t :: pySplit statusMarker tl2 :=
    pySplit_of_findSplit_some _ _ _ _ hn2 hfs2rest
  -- marker 2 in the whole text (for the status section)
  have hfs2T : findSplit statusMarker (thinkingMarker ++ rest)
      = some (thinkingMarker ++ t, tl2) := by
    have h' := findSplit_boundary statusMarker (thinkingMarker ++ t) tl2 hn2
      (SafeIn_append _ _ _ sf21 sf2t)
    simp only [List.append_assoc] at h'
    rw [hrest]
    exact h'
  have hno2tl2 : NoOcc statusMarker tl2 := by
    rw [htl2, htl3]
    exact NoOcc_of_SafeIn _ _ hn2
      (SafeIn_append _ _ _ sf2s (SafeIn_append _ _ _ sf23
        (SafeIn_append _ _ _ sf2r (SafeIn_append _ _ _ sf24 sf2c))))
  have hps2T : pySplit statusMarker (thinkingMarker ++ rest)
      = [thinkingMarker ++ t, tl2] := by
    rw [pySplit_of_findSplit_some _ _ _ _ hn2 hfs2T,
      pySplit_of_findSplit_none _ _ (findSplit_none_of_NoOcc _ _ hno2tl2)]
  -- marker 3 inside tl2 (for the status section)
  have hfs3tl2 : findSplit rationaleMarker tl2 = some (s, tl3) := by
    have h' := findSplit_boundary rationaleMarker s tl3 hn3 sf3s
    rw [List.append_assoc] at h'
    rw [htl2]
    exact h'
  have hps3tl2 : pySplit rationaleMarker tl2 = s :: pySplit rationaleMarker tl3 :=
    pySplit_of_findSplit_some _ _ _ _ hn3 hfs3tl2
  -- marker 3 in the whole text (for the rationale section)
  have hfs3T : findSplit rationaleMarker (thinkingMarker ++ rest)
      = some (thinkingMarker ++ (t ++ (statusMarker ++ s)), tl3) := by
    have h' := findSplit_boundary rationaleMarker
      (thinkingMarker ++ t ++ statusMarker ++ s) tl3 hn3
      (SafeIn_append _ _ _ (SafeIn_append _ _ _ (SafeIn_append _ _ _ sf31 sf3t) sf32) sf3s)
    simp only [List.append_assoc] at h'
    rw [hrest, htl2]
    exact h'
  have hno3tl3 : NoOcc rationaleMarker tl3 := by
    rw [htl3]
    exact NoOcc_of_SafeIn _ _ hn3
      (SafeIn_append _ _ _ sf3r (SafeIn_append _ _ _ sf34 sf3c))
  have hps3T : pySplit rationaleMarker (thinkingMarker ++ rest)
      = [thinkingMarker ++ (t ++ (statusMarker ++ s)), tl3] := by
    rw [pySplit_of_findSplit_some _ _ _ _ hn3 hfs3T,
      pySplit_of_findSplit_none _ _ (findSplit_none_of_NoOcc _ _ hno3tl3)]
  -- marker 4 inside tl3 (for the rationale section)
  have hfs4tl3 : findSplit evidenceMarker tl3 = some (r, c) := by
    have h' := findSplit_boundary evidenceMarker r c hn4 sf4r
    rw [List.append_assoc] at h'
    rw [htl3]
    exact h'
  have hps4tl3 : pySplit evidenceMarker tl3 = r :: pySplit evidenceMarker c :=
    pySplit_of_findSplit_some _ _ _ _ hn4 hfs4tl3
  -- marker 4 in the whole text (for the citation section)
  have hfs4T : findSplit evidenceMarker (thinkingMarker ++ rest)
      = some (thinkingMarker ++ (t ++ (statusMarker ++ (s ++ (rationaleMarker ++ r)))),
          c) := by
    have h' := findSplit_boundary evidenceMarker
      (thinkingMarker ++ t ++ statusMarker ++ s ++ rationaleMarker ++ r) c hn4
      (SafeIn_append _ _ _ (SafeIn_append _ _ _ (SafeIn_append _ _ _
        (SafeIn_append _ _ _ (SafeIn_append _ _ _ sf41 sf4t) sf42) sf4s) sf43) sf4r)
    simp only [List.append_assoc] at h'
    rw [hrest, htl2, htl3]
    exact h'
  have hno4c : NoOcc evidenceMarker c := NoOcc_of_SafeIn _ _ hn4 sf4c
  have hps4T : pySplit evidenceMarker (thinkingMarker ++ rest)
      = [thinkingMarker ++ (t ++ (statusMarker ++ (s ++ (rationaleMarker ++ r)))), c] := by
    rw [pySplit_of_findSplit_some _ _ _ _ hn4 hfs4T,
      pySplit_of_findSplit_none _ _ (findSplit_none_of_NoOcc _ _ hno4c)]
  -- containment guards
  have hc1 : containsSub thinkingMarker (thinkingMarker ++ rest) = true := by
    rw [containsSub, hfs1T]; rfl
  have hc2 : containsSub statusMarker (thinkingMarker ++ rest) = true := by
    rw [containsSub, hfs2T]; rfl
  have hc3 : containsSub rationaleMarker (thinkingMarker ++ rest) = true := by
    rw [containsSub, hfs3T]; rfl
  have hc4 : containsSub evidenceMarker (thinkingMarker ++ rest) = true := by
    rw [containsSub, hfs4T]; rfl
  -- assemble
  simp only [parse_structured_response]
  rw [if_pos hc1, if_pos hc2, if_pos hc3, if_pos hc4, hps1T, hps2T, hps3T, hps4T]
  simp only [List.getD_cons_succ, List.getD_cons_zero, hps2rest, hps3tl2, hps4tl3,
    List.headD_cons]

/-- C2: the structured-response parser splits on the four literal markers
in order, taking the text between each marker and the next (stripped) as
that section's value — shown for every response whose section bodies are
free of the marker character `*` — and any section whose marker is absent
keeps its default (`"No thinking provided."`, `"Unknown"`, empty, empty);
the parser is a total function, so it never raises on any input. -/
theorem parse_structured_response_spec (t s r c text : Str)
    (ht : '*' ∉ t) (hs : '*' ∉ s) (hr : '*' ∉ r) (hc : '*' ∉ c) :
    parse_structured_response
        (thinkingMarker ++ t ++ statusMarker ++ s ++ rationaleMarker ++ r
          ++ evidenceMarker ++ c)
      = { thinking := pyStrip t, status := pyStrip s,
          rationale := pyStrip r, citation := pyStrip c }
    ∧ (containsSub thinkingMarker text = false →
        (parse_structured_response text).thinking = "No thinking provided.".data)
    ∧ (containsSub statusMarker text = false →
        (parse_structured_response text).status = "Unknown".data)
    ∧ (containsSub rationaleMarker text = false →
        (parse_structured_response text).rationale = [])
    ∧ (containsSub evidenceMarker text = false →
        (parse_structured_response text).citation = []) := by
  refine ⟨parse_canonical t s r c ht hs hr hc, ?_, ?_, ?_, ?_⟩ <;>
    intro h <;> simp [parse_structured_response, h]

/-- C2 witness: a well-formed four-section response parses to its stripped
sections, and a response with no `**STATUS**:` marker keeps the
`"Unknown"` default. -/
theorem parse_structured_response_spec_witness :
    parse_structured_response
        (thinkingMarker ++ " I reason ".data ++ statusMarker ++ " Compliant ".data
          ++ rationaleMarker ++ " because ".data ++ evidenceMarker
          ++ " [Source: a.pdf] ".data)
      = { thinking := pyStrip " I reason ".data, status := pyStrip " Compliant ".data,
          rationale := pyStrip " because ".data,
          citation := pyStrip " [Source: a.pdf] ".data }
    ∧ (parse_structured_response "no markers here".data).status = "Unknown".data :=
  ⟨(parse_structured_response_spec " I reason ".data " Compliant ".data
      " because ".data " [Source: a.pdf] ".data [] (by decide) (by decide)
      (by decide) (by decide)).1,
   (parse_structured_response_spec [] [] [] [] "no markers here".data (by decide)
      (by decide) (by decide) (by decide)).2.2.1 (by decide)⟩
